import Mathlib

/-!
# BuhChat file-delivery core: shallow embedding and verification

This file embeds the download / archive-building / cleanup core of the
BuhChat bot (Go) into Lean 4 and proves the specification claims about it.

Conventions of the embedding:
* Go strings are Lean `String`s (operated on through their `List Char` data);
* Go `int64` is `Int`, `uint64` is `Nat` taken modulo `2^64` where overflow
  can occur; `strconv.Itoa` is `Nat.repr`;
* network and filesystem effects are passed in explicitly as oracle values
  (structures holding the response / outcome each effectful call would see),
  and each embedded operation additionally reports which effects it performed
  (whether a network call happened, whether the workspace directory was
  created and whether it was removed again).
-/

namespace BuhChat

/-! ## Go string primitives -/

/-- Go `unicode.IsSpace` restricted to the ASCII range, which is the alphabet
relevant to `strings.TrimSpace` here. -/
def goIsSpace (c : Char) : Bool :=
  c = ' ' || c = '\t' || c = '\n' || c = '\x0b' || c = '\x0c' || c = '\r'

/-- Go `strings.TrimSpace`: drop white space from both ends. -/
def goTrimSpace (s : String) : String :=
  ⟨((s.data.dropWhile goIsSpace).reverse.dropWhile goIsSpace).reverse⟩

/-- Go `strings.Contains`: substring containment. -/
def goContains (s sub : String) : Bool :=
  (List.range (s.data.length + 1)).any fun i => sub.data.isPrefixOf (s.data.drop i)

/-- Go `strings.HasPrefix`. -/
def goStartsWith (s pre : String) : Bool :=
  pre.data.isPrefixOf s.data

/-- Go `strings.TrimSuffix`: remove `suf` from the end of `s` when present. -/
def goTrimSuffix (s suf : String) : String :=
  if suf.data.isSuffixOf s.data then ⟨s.data.take (s.data.length - suf.data.length)⟩ else s

/-- The reversed run of characters `filepath.Ext` scans from the right end of
the path before hitting a `.` or a path separator. -/
def extTail (s : String) : List Char :=
  s.data.reverse.takeWhile fun c => c ≠ '.' && c ≠ '/'

/-- Go `path/filepath.Ext`: the suffix of the final path element beginning at
its final dot (empty when the final element has no dot).  The right-to-left
scan stops at the first `.` or separator; a `.` yields that dot plus the
scanned tail. -/
def goFilepathExt (s : String) : String :=
  match s.data.reverse.drop (extTail s).length with
  | '.' :: _ => ⟨'.' :: (extTail s).reverse⟩
  | _ => ""

/-- The last path component after stripping trailing separators: reading the
path from the right, skip separators, then take up to the next separator. -/
def baseCore (s : String) : List Char :=
  ((s.data.reverse.dropWhile (· = '/')).takeWhile (· ≠ '/')).reverse

/-- Go `path/filepath.Base` (unix): `"."` for the empty path; otherwise strip
trailing separators and keep what follows the last remaining separator,
yielding `"/"` when the path consisted only of separators. -/
def goFilepathBase (s : String) : String :=
  if s = "" then "." else if baseCore s = [] then "/" else ⟨baseCore s⟩

/-! ## Decimal rendering: `Nat.repr` is injective

`strconv.Itoa` on the Go side is `Nat.repr` here; the filename-collision
proofs need that distinct counters render to distinct strings. -/

/-- Decimal digit list of `n` (most significant first), by division. -/
def decDigits (n : Nat) : List Char :=
  if h : n < 10 then [Nat.digitChar n]
  else
    have : n / 10 < n := Nat.div_lt_self (by omega) (by omega)
    decDigits (n / 10) ++ [Nat.digitChar (n % 10)]

/-- Numeric value of a decimal-digit character, inverse to `Nat.digitChar`
on `0..9`. -/
def decVal (c : Char) : Nat :=
  if c = '0' then 0 else if c = '1' then 1 else if c = '2' then 2
  else if c = '3' then 3 else if c = '4' then 4 else if c = '5' then 5
  else if c = '6' then 6 else if c = '7' then 7 else if c = '8' then 8 else 9

/-- Value of a digit string, most significant first. -/
def decValOf (l : List Char) : Nat :=
  l.foldl (fun a c => 10 * a + decVal c) 0

theorem decVal_digitChar : ∀ d < 10, decVal (Nat.digitChar d) = d := by decide

theorem decValOf_append_singleton (l : List Char) (c : Char) :
    decValOf (l ++ [c]) = 10 * decValOf l + decVal c := by
  simp [decValOf, List.foldl_append]

theorem decValOf_decDigits (n : Nat) : decValOf (decDigits n) = n := by
  induction n using Nat.strong_induction_on with
  | _ n ih =>
    rw [decDigits]
    by_cases h : n < 10
    · simp only [h, dif_pos]
      simp [decValOf, decVal_digitChar n h]
    · simp only [h, dif_neg, not_false_iff]
      rw [decValOf_append_singleton,
        ih (n / 10) (Nat.div_lt_self (by omega) (by omega)),
        decVal_digitChar (n % 10) (Nat.mod_lt n (by omega))]
      omega

theorem decDigits_injective : Function.Injective decDigits := by
  intro a b h
  have := decValOf_decDigits a
  rw [h, decValOf_decDigits] at this
  exact this.symm

theorem decDigits_ne_nil (n : Nat) : decDigits n ≠ [] := by
  rw [decDigits]
  by_cases h : n < 10 <;> simp [h]

/-- `Nat.toDigitsCore` with sufficient fuel computes `decDigits`. -/
theorem toDigitsCore_eq_decDigits :
    ∀ (fuel n : Nat) (ds : List Char), n < fuel →
      Nat.toDigitsCore 10 fuel n ds = decDigits n ++ ds := by
  intro fuel
  induction fuel with
  | zero => intro n ds h; omega
  | succ f ih =>
    intro n ds h
    rw [Nat.toDigitsCore]
    by_cases h10 : n < 10
    · have hdiv : n / 10 = 0 := Nat.div_eq_of_lt h10
      simp only [hdiv, if_pos rfl]
      rw [decDigits]
      simp [h10, Nat.mod_eq_of_lt h10]
    · have hdiv : n / 10 ≠ 0 := by
        intro hc
        have := (Nat.div_eq_zero_iff (by omega : 0 < 10)).1 hc
        omega
      simp only [hdiv, if_neg, ite_false]
      rw [ih (n / 10) _ (by
        have : n / 10 < n := Nat.div_lt_self (by omega) (by omega)
        omega)]
      conv_rhs => rw [decDigits]
      simp only [h10, dif_neg, not_false_iff]
      simp

theorem repr_eq_decDigits (n : Nat) : Nat.repr n = ⟨decDigits n⟩ := by
  rw [Nat.repr, Nat.toDigits, toDigitsCore_eq_decDigits (n + 1) n [] (Nat.lt_succ_self n)]
  simp [List.asString]

theorem repr_injective : Function.Injective Nat.repr := by
  intro a b h
  rw [repr_eq_decDigits, repr_eq_decDigits] at h
  exact decDigits_injective (congrArg String.data h)

theorem repr_ne_empty (n : Nat) : Nat.repr n ≠ "" := by
  rw [repr_eq_decDigits]
  intro h
  exact decDigits_ne_nil n (congrArg String.data h)

/-! ## `yandex.go`: link classification, resolution, size probe, download -/

/-- Go `strings.Index`: first index of `sub` in `s`, `-1` when absent. -/
def goIndexSub (s sub : String) : Int :=
  match (List.range (s.data.length + 1)).find? (fun i => sub.data.isPrefixOf (s.data.drop i)) with
  | some i => (i : Int)
  | none => -1

/-- Go `strings.Trim`: drop characters of `cutset` from both ends. -/
def goTrimCutset (s cutset : String) : String :=
  ⟨((s.data.dropWhile (cutset.data.contains ·)).reverse.dropWhile
      (cutset.data.contains ·)).reverse⟩

/-- Go `strings.IndexAny`: first index of any character of `chars`, `-1` when none. -/
def goIndexAny (s chars : String) : Int :=
  match s.data.findIdx? (chars.data.contains ·) with
  | some i => (i : Int)
  | none => -1

/-- `isYandexDiskURL` returns true when the link points at disk.yandex. -/
def isYandexDiskURL (s : String) : Bool :=
  goContains s "disk.yandex.ru" || goContains s "disk.yandex.com"

/-- The filename extraction of `downloadByURL` from the `Content-Disposition`
header value (empty string when the header is absent): default `"document"`,
overridden by a trimmed `filename=` parameter when present and nonempty. -/
def filenameFromCD (cd : String) : String :=
  if cd = "" then "document"
  else
    let i := goIndexSub cd "filename="
    if i ≥ 0 then
      let s0 := goTrimCutset ⟨cd.data.drop (i.toNat + 9)⟩ " \"'"
      let e := goIndexAny s0 "; \t\n"
      let s1 := if e > 0 then (⟨s0.data.take e.toNat⟩ : String) else s0
      if s1 ≠ "" then s1 else "document"
    else "document"

/-- A HEAD response as observed by the code: status, declared `Content-Length`
(`-1` when unknown) and the `Content-Disposition` header (`""` when absent). -/
structure HeadResp where
  statusCode : Nat
  contentLength : Int
  contentDisposition : String
deriving DecidableEq, Repr

/-- A GET response: status, declared `Content-Length` (`-1` when unknown) and
the byte stream the body actually delivers. -/
structure GetResp where
  statusCode : Nat
  contentLength : Int
  body : List Nat
deriving DecidableEq, Repr

/-- The error values the downloader can surface (`errors.New` values and
`fmt.Errorf` cases of `yandex.go`). -/
inductive FetchErr where
  | network (msg : String)
  | headStatus (code : Nat)
  | getStatus (code : Nat)
  | fileTooLarge
  | notYandexDisk
  | directNotFound
  | emptyURL
deriving DecidableEq, Repr

/-- `downloadByURL`: HEAD the direct URL, reject a positive declared length
above `maxSize`, extract the filename, GET the URL, reject again on the GET's
declared length, then read through `io.LimitReader(body, maxSize+1)` and
reject when more than `maxSize` bytes arrived.  The transport outcome of the
two requests is passed in as `head` and `get`; the second component of the
result counts the body bytes actually consumed from the GET stream. -/
def downloadByURL (maxSize : Int) (head : Except String HeadResp)
    (get : Except String GetResp) : Except FetchErr (List Nat × String) × Nat :=
  match head with
  | .error e => (.error (.network e), 0)
  | .ok hr =>
    if hr.statusCode ≠ 200 ∧ hr.statusCode ≠ 302 then (.error (.headStatus hr.statusCode), 0)
    else if hr.contentLength > 0 ∧ hr.contentLength > maxSize then (.error .fileTooLarge, 0)
    else
      let filename := filenameFromCD hr.contentDisposition
      match get with
      | .error e => (.error (.network e), 0)
      | .ok gr =>
        if gr.statusCode ≠ 200 then (.error (.getStatus gr.statusCode), 0)
        else if gr.contentLength > 0 ∧ gr.contentLength > maxSize then (.error .fileTooLarge, 0)
        else
          let data := gr.body.take (maxSize + 1).toNat
          if (data.length : Int) > maxSize then (.error .fileTooLarge, data.length)
          else (.ok (data, filename), data.length)

/-- Outcome of the network portion of `GetDirectURL` for a Yandex-Disk link
(the redirect `Location`, the ≤1 MiB markup scan for a
`downloader.disk.yandex` URL, and the Cloud-API fallback are abstracted into
their combined result): a direct URL was found, all strategies were
exhausted (`ErrDirectNotFound`), or the transport failed. -/
inductive ResolveNet where
  | found (direct : String)
  | notFound
  | netErr (msg : String)
deriving DecidableEq, Repr

/-- `GetDirectURL`: trim the input; reject the empty link; pass a non-Yandex
link through unchanged without touching the network; otherwise run the
resolution strategies (`net`).  The second component records whether a
network call was performed. -/
def GetDirectURL (net : ResolveNet) (shareURL : String) :
    Except FetchErr String × Bool :=
  let s := goTrimSpace shareURL
  if s = "" then (.error .emptyURL, false)
  else if !isYandexDiskURL s then (.ok s, false)
  else
    match net with
    | .found d => (.ok d, true)
    | .notFound => (.error .directNotFound, true)
    | .netErr e => (.error (.network e), true)

/-- `GetFileSize`: trim; reject empty and non-Yandex links; resolve the direct
URL; HEAD it; accept status 200/302; report the declared length when it is
`≥ 0` and the sentinel `-1` otherwise. -/
def GetFileSize (net : ResolveNet) (head : Except String HeadResp)
    (shareURL : String) : Except FetchErr Int :=
  let s := goTrimSpace shareURL
  if s = "" then .error .emptyURL
  else if !isYandexDiskURL s then .error .notYandexDisk
  else
    match (GetDirectURL net s).1 with
    | .error e => .error e
    | .ok _direct =>
      match head with
      | .error e => .error (.network e)
      | .ok r =>
        if r.statusCode ≠ 200 ∧ r.statusCode ≠ 302 then .error (.headStatus r.statusCode)
        else if r.contentLength ≥ 0 then .ok r.contentLength
        else .ok (-1)

/-! ### Trimming is idempotent -/

theorem dropWhile_idem (p : α → Bool) (l : List α) :
    (l.dropWhile p).dropWhile p = l.dropWhile p := by
  induction l with
  | nil => rfl
  | cons a t ih =>
    by_cases h : p a
    · simp [List.dropWhile_cons, h, ih]
    · simp [List.dropWhile_cons, h]

theorem head?_dropWhile_false (p : α → Bool) (l : List α) (a : α)
    (h : (l.dropWhile p).head? = some a) : p a = false := by
  induction l with
  | nil => simp at h
  | cons b t ih =>
    by_cases hb : p b
    · rw [List.dropWhile_cons_of_pos hb] at h
      exact ih h
    · rw [List.dropWhile_cons_of_neg hb] at h
      simp at h
      subst h
      simpa using hb

theorem getLast?_dropWhile (p : α → Bool) (l : List α)
    (h : l.dropWhile p ≠ []) : (l.dropWhile p).getLast? = l.getLast? := by
  induction l with
  | nil => simp at h
  | cons b t ih =>
    by_cases hb : p b
    · rw [List.dropWhile_cons_of_pos hb] at h ⊢
      cases t with
      | nil => simp at h
      | cons c u => rw [ih h, List.getLast?_cons_cons]
    · rw [List.dropWhile_cons_of_neg hb]

theorem goTrimSpace_idem (s : String) : goTrimSpace (goTrimSpace s) = goTrimSpace s := by
  unfold goTrimSpace
  congr 1
  set p := goIsSpace
  set A := s.data.dropWhile p with hA
  set D := A.reverse.dropWhile p with hD
  show ((D.reverse.dropWhile p).reverse.dropWhile p).reverse = D.reverse
  have hDD : D.reverse.dropWhile p = D.reverse := by
    cases hrev : D.reverse with
    | nil => simp
    | cons c r =>
      have hc : D.getLast? = some c := by
        rw [← List.head?_reverse, hrev, List.head?_cons]
      have hDne : D ≠ [] := by
        intro hc'
        rw [hc'] at hrev
        simp at hrev
      have : A.reverse.getLast? = some c := by
        rw [← getLast?_dropWhile p A.reverse (hD ▸ hDne), ← hD, hc]
      have hcA : A.head? = some c := by
        rwa [List.getLast?_reverse] at this
      have hpc : p c = false := head?_dropWhile_false p s.data c (hA ▸ hcA)
      exact List.dropWhile_cons_of_neg (by simp [hpc])
  rw [hDD, List.reverse_reverse, hD, dropWhile_idem]

/-! ## Claim theorems: resolution, size probe, download -/

/-- **C1**: with both transports succeeding and acceptable statuses, a body
stream longer than `maxSize` makes `downloadByURL` fail with
`ErrFileTooLarge` and return no data — whatever the declared lengths said —
because reading is capped at `maxSize + 1` bytes; and any successful download
returns at most `maxSize` bytes. -/
theorem fetch_wire_cap (maxSize : Int) (hr : HeadResp) (gr : GetResp)
    (hhs : hr.statusCode = 200 ∨ hr.statusCode = 302)
    (hgs : gr.statusCode = 200) :
    ((gr.body.length : Int) > maxSize →
      (downloadByURL maxSize (.ok hr) (.ok gr)).1 = .error .fileTooLarge) ∧
    ∀ data fn, (downloadByURL maxSize (.ok hr) (.ok gr)).1 = .ok (data, fn) →
      (data.length : Int) ≤ maxSize := by
  have h1 : ¬(hr.statusCode ≠ 200 ∧ hr.statusCode ≠ 302) := by
    rcases hhs with h | h <;> simp [h]
  have h3 : ¬(gr.statusCode ≠ 200) := by simp [hgs]
  constructor
  · intro hlong
    simp only [downloadByURL, if_neg h1, if_neg h3]
    split_ifs with h2 h4 h5
    · rfl
    · rfl
    · rfl
    · exfalso
      rw [List.length_take] at h5
      omega
  · intro data fn hok
    simp only [downloadByURL, if_neg h1, if_neg h3] at hok
    split_ifs at hok with h2 h4 h5
    simp only [Prod.fst, Except.ok.injEq, Prod.mk.injEq] at hok
    rw [← hok.1]
    omega

/-- **C1** (witness): a 7-byte stream against a 5-byte ceiling with unknown
declared lengths is rejected as too large, and a successful 3-byte download
is within the ceiling. -/
theorem fetch_wire_cap_witness :
    ((([1, 2, 3, 4, 5, 6, 7] : List Nat).length : Int) > 5 →
      (downloadByURL 5 (.ok ⟨200, -1, ""⟩) (.ok ⟨200, -1, [1, 2, 3, 4, 5, 6, 7]⟩)).1 =
        .error .fileTooLarge) ∧
    ∀ data fn,
      (downloadByURL 5 (.ok ⟨200, -1, ""⟩) (.ok ⟨200, -1, [1, 2, 3, 4, 5, 6, 7]⟩)).1 =
        .ok (data, fn) → (data.length : Int) ≤ 5 :=
  fetch_wire_cap 5 ⟨200, -1, ""⟩ ⟨200, -1, [1, 2, 3, 4, 5, 6, 7]⟩ (Or.inl rfl) rfl

/-- **C5**: a positive declared `Content-Length` above the ceiling makes
`downloadByURL` fail with `ErrFileTooLarge` while zero body bytes have been
consumed: the check fires on the HEAD response, and fires again on the GET
response before the body reader is touched. -/
theorem fetch_header_check (maxSize : Int) (hr : HeadResp) (gr : GetResp)
    (hhs : hr.statusCode = 200 ∨ hr.statusCode = 302) :
    (0 < hr.contentLength → maxSize < hr.contentLength →
      downloadByURL maxSize (.ok hr) (.ok gr) = (.error .fileTooLarge, 0)) ∧
    (gr.statusCode = 200 → 0 < gr.contentLength → maxSize < gr.contentLength →
      downloadByURL maxSize (.ok hr) (.ok gr) = (.error .fileTooLarge, 0)) := by
  have h1 : ¬(hr.statusCode ≠ 200 ∧ hr.statusCode ≠ 302) := by
    rcases hhs with h | h <;> simp [h]
  constructor
  · intro hp hgt
    simp only [downloadByURL, if_neg h1]
    rw [if_pos ⟨hp, hgt⟩]
  · intro hgs hp hgt
    simp only [downloadByURL, if_neg h1]
    split_ifs with h2 h3 h4 h5
    · rfl
    · exact absurd hgs h3
    · rfl
    · exact absurd ⟨hp, hgt⟩ h4
    · exact absurd ⟨hp, hgt⟩ h4

/-- **C5** (witness): declared length 9 over ceiling 5 is rejected on the
HEAD response, and declared length 9 on the GET (with a passing HEAD) is
rejected before reading, both with zero bytes consumed. -/
theorem fetch_header_check_witness :
    ((0 : Int) < 9 → (5 : Int) < 9 →
      downloadByURL 5 (.ok ⟨200, 9, ""⟩) (.ok ⟨200, -1, [1, 2, 3]⟩) =
        (.error .fileTooLarge, 0)) ∧
    (200 = 200 → (0 : Int) < 9 → (5 : Int) < 9 →
      downloadByURL 5 (.ok ⟨200, 9, ""⟩) (.ok ⟨200, -1, [1, 2, 3]⟩) =
        (.error .fileTooLarge, 0)) := by
  have h := fetch_header_check 5 ⟨200, 9, ""⟩ ⟨200, -1, [1, 2, 3]⟩ (Or.inl rfl)
  exact ⟨fun _ _ => h.1 (by decide) (by decide), fun _ _ _ => h.1 (by decide) (by decide)⟩

/-- **C3** (counterexample): the claim fails as stated.  A whitespace-padded
link whose host `example.com` is outside the share-link domain set is
returned trimmed, not unchanged; the empty input produces an error rather
than a pass-through; and a link whose host `evil.example` is outside the
domain set but whose query contains `disk.yandex.ru` as a substring does
trigger a network call. -/
theorem resolve_passthrough_cex :
    ((GetDirectURL .notFound " https://example.com ").1 = .ok "https://example.com" ∧
      (" https://example.com " : String) ≠ "https://example.com") ∧
    (GetDirectURL .notFound "").1 = .error .emptyURL ∧
    (GetDirectURL .notFound "https://evil.example/a?d=disk.yandex.ru").2 = true :=
  ⟨⟨rfl, by decide⟩, rfl, rfl⟩

/-- **C3** (amended): for every input whose trimmed form is nonempty and does
not contain `disk.yandex.ru` or `disk.yandex.com` as a substring,
`GetDirectURL` returns the trimmed input as the direct URL and performs no
network call. -/
theorem resolve_passthrough (net : ResolveNet) (s : String)
    (hne : goTrimSpace s ≠ "")
    (hni : isYandexDiskURL (goTrimSpace s) = false) :
    GetDirectURL net s = (.ok (goTrimSpace s), false) := by
  simp [GetDirectURL, hne, hni]

/-- **C3** (witness): a plain `example.com` link is passed through trimmed
with no network call. -/
theorem resolve_passthrough_witness :
    goTrimSpace "https://example.com/file.pdf" ≠ "" ∧
    isYandexDiskURL (goTrimSpace "https://example.com/file.pdf") = false ∧
    GetDirectURL .notFound "https://example.com/file.pdf" =
      (.ok (goTrimSpace "https://example.com/file.pdf"), false) :=
  ⟨by decide, by decide, resolve_passthrough .notFound _ (by decide) (by decide)⟩

/-- **C7**: when the size probe's metadata round trip completes with an
acceptable status (200 or 302) but the declared length is unknown
(`ContentLength < 0`), `GetFileSize` reports the sentinel `-1` with no
error. -/
theorem probe_unknown_size (d s : String) (r : HeadResp)
    (hne : goTrimSpace s ≠ "")
    (hy : isYandexDiskURL (goTrimSpace s) = true)
    (hst : r.statusCode = 200 ∨ r.statusCode = 302)
    (hcl : r.contentLength < 0) :
    GetFileSize (.found d) (.ok r) s = .ok (-1) := by
  have h1 : ¬(r.statusCode ≠ 200 ∧ r.statusCode ≠ 302) := by
    rcases hst with h | h <;> simp [h]
  have hnn : ¬(r.contentLength ≥ 0) := by omega
  have hy2 : isYandexDiskURL (goTrimSpace (goTrimSpace s)) = true := by
    rwa [goTrimSpace_idem]
  have hne2 : goTrimSpace (goTrimSpace s) ≠ "" := by
    rwa [goTrimSpace_idem]
  simp [GetFileSize, GetDirectURL, hne, hy, hne2, hy2, h1, hnn]

/-- **C7** (witness): a Yandex-Disk share link whose HEAD answers 200 without
a usable `Content-Length` probes as `-1` with no error. -/
theorem probe_unknown_size_witness :
    goTrimSpace "https://disk.yandex.ru/i/abc" ≠ "" ∧
    isYandexDiskURL (goTrimSpace "https://disk.yandex.ru/i/abc") = true ∧
    (-1 : Int) < 0 ∧
    GetFileSize (.found "https://downloader.disk.yandex.ru/disk/x")
      (.ok ⟨200, -1, ""⟩) "https://disk.yandex.ru/i/abc" = .ok (-1) :=
  ⟨by decide, by decide, by decide,
    probe_unknown_size _ _ ⟨200, -1, ""⟩ (by decide) (by decide) (Or.inl rfl) (by decide)⟩

/-! ## `main.go`: cleanup worker and free-space probe -/

/-- `cleanupMaxAge = 30 * time.Minute`, in nanoseconds (Go `time.Duration`). -/
def cleanupMaxAge : Int := 30 * 60 * 1000000000

/-- One entry of the temporary-file root as the sweep observes it: name,
directory flag, modification time (nanoseconds) and whether `e.Info()`
fails. -/
structure DirEntry where
  name : String
  isDir : Bool
  modTime : Int
  infoErr : Bool
deriving DecidableEq, Repr

/-- The per-entry decision of one `StartCleanupWorker` tick: directories
prefixed `bulk_` or `single_` are removed when `now - modTime ≥
cleanupMaxAge`; files prefixed `bugchat-` likewise; everything else, and any
entry whose `Info()` fails, is left alone. -/
def sweepDeletes (now : Int) (e : DirEntry) : Bool :=
  if e.isDir then
    if goStartsWith e.name "bulk_" || goStartsWith e.name "single_" then
      if e.infoErr then false
      else decide (now - e.modTime ≥ cleanupMaxAge)
    else false
  else
    if !goStartsWith e.name "bugchat-" then false
    else if e.infoErr then false
    else if now - e.modTime < cleanupMaxAge then false
    else true

/-- The entries one sweep tick removes from the temporary root. -/
def sweepOnce (now : Int) (entries : List DirEntry) : List DirEntry :=
  entries.filter (sweepDeletes now)

theorem sweepDeletes_iff (now : Int) (e : DirEntry) :
    sweepDeletes now e = true ↔
      e.infoErr = false ∧ now - e.modTime ≥ cleanupMaxAge ∧
      ((e.isDir = true ∧
          (goStartsWith e.name "bulk_" = true ∨ goStartsWith e.name "single_" = true)) ∨
        (e.isDir = false ∧ goStartsWith e.name "bugchat-" = true)) := by
  obtain ⟨n, d, m, ie⟩ := e
  simp only [sweepDeletes]
  cases d <;> cases ie <;>
    cases hb : goStartsWith n "bulk_" <;>
    cases hs : goStartsWith n "single_" <;>
    cases hg : goStartsWith n "bugchat-" <;>
    simp [hb, hs, hg, decide_eq_true_iff]

/-- **C6**: a sweep removes only entries matching the workspace naming
conventions (`bulk_`/`single_` directories, `bugchat-` files) whose age is at
least the 30-minute retention window; it never deletes a directory younger
than the window; and every matching entry at or beyond the window whose
metadata is readable is deleted by the sweep that observes it. -/
theorem cleanup_sweep (now : Int) (entries : List DirEntry) :
    (∀ e ∈ sweepOnce now entries,
      ((e.isDir = true ∧
          (goStartsWith e.name "bulk_" = true ∨ goStartsWith e.name "single_" = true)) ∨
        (e.isDir = false ∧ goStartsWith e.name "bugchat-" = true)) ∧
      now - e.modTime ≥ cleanupMaxAge) ∧
    (∀ e ∈ entries, e.isDir = true → now - e.modTime < cleanupMaxAge →
      e ∉ sweepOnce now entries) ∧
    (∀ e ∈ entries, e.infoErr = false → now - e.modTime ≥ cleanupMaxAge →
      ((e.isDir = true ∧
          (goStartsWith e.name "bulk_" = true ∨ goStartsWith e.name "single_" = true)) ∨
        (e.isDir = false ∧ goStartsWith e.name "bugchat-" = true)) →
      e ∈ sweepOnce now entries) := by
  refine ⟨?_, ?_, ?_⟩
  · intro e he
    rw [sweepOnce, List.mem_filter] at he
    have hd := (sweepDeletes_iff now e).1 he.2
    exact ⟨hd.2.2, hd.2.1⟩
  · intro e he hdir hyoung hmem
    rw [sweepOnce, List.mem_filter] at hmem
    have hd := (sweepDeletes_iff now e).1 hmem.2
    omega
  · intro e he hinfo hold hmatch
    rw [sweepOnce, List.mem_filter]
    exact ⟨he, (sweepDeletes_iff now e).2 ⟨hinfo, hold, hmatch⟩⟩

/-- **C6** (witness): at `now` = two hours, a two-hour-old `bulk_` directory
is removed by the sweep, while a 200-second-old `bulk_` directory is kept. -/
theorem cleanup_sweep_witness :
    (⟨"bulk_x", true, 0, false⟩ : DirEntry) ∈
      sweepOnce (7200 * 1000000000)
        [⟨"bulk_x", true, 0, false⟩, ⟨"bulk_y", true, 7000 * 1000000000, false⟩] ∧
    (⟨"bulk_y", true, 7000 * 1000000000, false⟩ : DirEntry) ∉
      sweepOnce (7200 * 1000000000)
        [⟨"bulk_x", true, 0, false⟩, ⟨"bulk_y", true, 7000 * 1000000000, false⟩] :=
  ⟨(cleanup_sweep (7200 * 1000000000)
      [⟨"bulk_x", true, 0, false⟩, ⟨"bulk_y", true, 7000 * 1000000000, false⟩]).2.2
      ⟨"bulk_x", true, 0, false⟩ (by decide) rfl (by decide)
      (Or.inl ⟨rfl, Or.inl (by decide)⟩),
    (cleanup_sweep (7200 * 1000000000)
      [⟨"bulk_x", true, 0, false⟩, ⟨"bulk_y", true, 7000 * 1000000000, false⟩]).2.1
      ⟨"bulk_y", true, 7000 * 1000000000, false⟩ (by decide) rfl (by decide)⟩

/-- `math.MaxUint64`. -/
def maxUint64 : Nat := 2 ^ 64 - 1

/-- Outcome of `syscall.Statfs`: the `Bavail` and `Bsize` fields (as their
`uint64` values), or a failing call. -/
inductive StatfsResult where
  | ok (bavail bsize : Nat)
  | err
deriving DecidableEq, Repr

/-- `getFreeSpaceBytes`: `math.MaxUint64` on Windows or when `Statfs` fails
(so that downloads are never blocked there), else `Bavail * Bsize` in
`uint64` arithmetic. -/
def getFreeSpaceBytes (isWindows : Bool) (st : StatfsResult) : Nat :=
  if isWindows then maxUint64
  else
    match st with
    | .err => maxUint64
    | .ok bavail bsize => (bavail * bsize) % 2 ^ 64

/-- Go conversion `uint64(m)` of a non-negative-or-negative `int64`. -/
def goUint64OfInt (m : Int) : Nat := (m % 2 ^ 64).toNat

/-- The preflight disk-space check of `BulkDownloadAndZip`:
`free < uint64(minFreeBytes)` rejects the batch with "not enough disk
space". -/
def bulkSpaceRejected (isWindows : Bool) (st : StatfsResult) (minFreeBytes : Int) : Bool :=
  decide (getFreeSpaceBytes isWindows st < goUint64OfInt minFreeBytes)

/-- **C10**: on Windows or when `Statfs` fails the probe reports
`math.MaxUint64`, so such a probe never rejects a batch; a rejection can only
happen when the probe succeeded (non-Windows, `Statfs` ok) and reported
strictly less than `uint64(minFreeBytes)`. -/
theorem space_precheck (isWindows : Bool) (st : StatfsResult) (minFreeBytes : Int) :
    ((isWindows = true ∨ st = .err) →
      getFreeSpaceBytes isWindows st = maxUint64 ∧
      bulkSpaceRejected isWindows st minFreeBytes = false) ∧
    (bulkSpaceRejected isWindows st minFreeBytes = true →
      isWindows = false ∧ ∃ a b, st = .ok a b ∧
        (a * b) % 2 ^ 64 < goUint64OfInt minFreeBytes) := by
  have hcast : goUint64OfInt minFreeBytes < 2 ^ 64 := by
    have h1 := Int.emod_lt_of_pos minFreeBytes (by positivity : (0 : Int) < 2 ^ 64)
    have h2 := Int.emod_nonneg minFreeBytes (by positivity : (2 : Int) ^ 64 ≠ 0)
    unfold goUint64OfInt
    omega
  constructor
  · intro h
    have hfree : getFreeSpaceBytes isWindows st = maxUint64 := by
      rcases h with h | h
      · simp [getFreeSpaceBytes, h]
      · subst h
        by_cases hw : isWindows = true <;> simp [getFreeSpaceBytes, hw]
    refine ⟨hfree, ?_⟩
    rw [bulkSpaceRejected, hfree]
    simp only [decide_eq_false_iff_not, not_lt]
    unfold maxUint64
    omega
  · intro h
    rw [bulkSpaceRejected, decide_eq_true_iff] at h
    by_cases hw : isWindows = true
    · simp only [getFreeSpaceBytes, if_pos hw] at h
      unfold maxUint64 at h
      omega
    · simp only [Bool.not_eq_true] at hw
      refine ⟨hw, ?_⟩
      cases st with
      | err =>
        simp only [getFreeSpaceBytes, hw, Bool.false_eq_true, if_false] at h
        unfold maxUint64 at h
        omega
      | ok a b =>
        refine ⟨a, b, rfl, ?_⟩
        simp only [getFreeSpaceBytes, hw, Bool.false_eq_true, if_false] at h
        exact h

/-- **C10** (witness): on Windows (or a failed probe) the 100 MiB floor never
rejects; on Linux with a successful probe reporting 0 bytes available, the
probe result is what drives the rejection. -/
theorem space_precheck_witness :
    (getFreeSpaceBytes true (.ok 0 4096) = maxUint64 ∧
      bulkSpaceRejected true (.ok 0 4096) (100 * 1024 * 1024) = false) ∧
    (false = false ∧ ∃ a b, (StatfsResult.ok 0 4096) = .ok a b ∧
      (a * b) % 2 ^ 64 < goUint64OfInt (100 * 1024 * 1024)) :=
  ⟨(space_precheck true (.ok 0 4096) (100 * 1024 * 1024)).1 (Or.inl rfl),
    (space_precheck false (.ok 0 4096) (100 * 1024 * 1024)).2 (by decide)⟩

/-! ## `downloader.go`: sanitizers and collision resolution -/

/-- The reserved characters both sanitizers strip. -/
def badChars : List Char := ['/', '\\', ':', '*', '?', '"', '<', '>', '|']

/-- `sanitizeCategoryForZip`: drop reserved characters, turn blanks and tabs
into `_`, trim, and fall back to `"archive"` when nothing remains. -/
def sanitizeCategoryForZip (s : String) : String :=
  let mapped : List Char := s.data.filterMap fun r =>
    if badChars.contains r then none
    else if r = ' ' || r = '\t' then some '_'
    else some r
  let out := goTrimSpace ⟨mapped⟩
  if out = "" then "archive" else out

/-- `sanitizeBulkFilename`: drop reserved characters and trim. -/
def sanitizeBulkFilename (s : String) : String :=
  goTrimSpace ⟨s.data.filter fun r => !badChars.contains r⟩

/-- The candidate name the collision loop of `BulkDownloadAndZip` tries at
counter `c`: the bare `base` at `c = 0`, then `baseNoExt ++ "_" ++ c ++ ext`
(when `ext` is empty the two Go branches coincide with this formula, since
appending the empty string is the identity). -/
def nameForCounter (base baseNoExt ext : String) (c : Nat) : String :=
  if c = 0 then base else baseNoExt ++ "_" ++ Nat.repr c ++ ext

/-- The collision loop: starting from counter `c`, return the first candidate
not in `used`.  `fuel` bounds the search; the Go loop is unbounded, and
`pickName_spec` below shows that `used.length + 1` fuel always reaches a
fresh name, so the two agree. -/
def pickName (used : List String) (base baseNoExt ext : String) : Nat → Nat → String
  | 0, c => nameForCounter base baseNoExt ext c
  | fuel + 1, c =>
    let cand := nameForCounter base baseNoExt ext c
    if cand ∈ used then pickName used base baseNoExt ext fuel (c + 1) else cand

theorem nameForCounter_injective (base baseNoExt ext : String)
    (hsplit : base = baseNoExt ++ ext) :
    Function.Injective (nameForCounter base baseNoExt ext) := by
  intro c1 c2 h
  unfold nameForCounter at h
  by_cases h1 : c1 = 0 <;> by_cases h2 : c2 = 0
  · omega
  · exfalso
    rw [if_pos h1, if_neg h2, hsplit] at h
    have := congrArg (fun s => s.data.length) h
    simp only [String.data_append, List.length_append] at this
    have hr : (Nat.repr c2).data.length ≥ 1 := by
      cases hd : (Nat.repr c2).data with
      | nil => exact absurd (String.ext hd : Nat.repr c2 = ⟨[]⟩) (repr_ne_empty c2)
      | cons a l => simp
    simp only [String.length_mk] at hr ⊢
    have h1len : ("_" : String).data.length = 1 := rfl
    omega
  · exfalso
    rw [if_neg h1, if_pos h2, hsplit] at h
    have := congrArg (fun s => s.data.length) h
    simp only [String.data_append, List.length_append] at this
    have hr : (Nat.repr c1).data.length ≥ 1 := by
      cases hd : (Nat.repr c1).data with
      | nil => exact absurd (String.ext hd : Nat.repr c1 = ⟨[]⟩) (repr_ne_empty c1)
      | cons a l => simp
    have h1len : ("_" : String).data.length = 1 := rfl
    omega
  · rw [if_neg h1, if_neg h2] at h
    have hd := congrArg String.data h
    simp only [String.data_append] at hd
    have hd2 := List.append_cancel_right hd
    have hd3 := List.append_cancel_left hd2
    exact repr_injective (String.ext hd3)

/-- Pigeonhole: among `used.length + 1` consecutive counters starting at
`start`, at least one candidate name avoids `used`. -/
theorem exists_fresh_counter (used : List String) (base baseNoExt ext : String)
    (hsplit : base = baseNoExt ++ ext) (start : Nat) :
    ∃ c, start ≤ c ∧ c ≤ start + used.length ∧
      nameForCounter base baseNoExt ext c ∉ used := by
  by_contra hcon
  push_neg at hcon
  have hsub : (Finset.Icc start (start + used.length)).image
      (nameForCounter base baseNoExt ext) ⊆ used.toFinset := by
    intro x hx
    rw [Finset.mem_image] at hx
    obtain ⟨c, hc, rfl⟩ := hx
    rw [Finset.mem_Icc] at hc
    rw [List.mem_toFinset]
    exact hcon c hc.1 hc.2
  have hcard : (Finset.Icc start (start + used.length)).card = used.length + 1 := by
    rw [Nat.card_Icc]
    omega
  have himg : ((Finset.Icc start (start + used.length)).image
      (nameForCounter base baseNoExt ext)).card = used.length + 1 := by
    rw [Finset.card_image_of_injective _ (nameForCounter_injective base baseNoExt ext hsplit)]
    exact hcard
  have h1 := Finset.card_le_card hsub
  have h2 := used.toFinset_card_le
  omega

/-- The fueled collision loop returns the first fresh candidate counter, as
long as a fresh candidate exists within the fuel. -/
theorem pickName_spec (used : List String) (base baseNoExt ext : String) :
    ∀ (fuel start : Nat),
      (∃ c, start ≤ c ∧ c < start + fuel ∧ nameForCounter base baseNoExt ext c ∉ used) →
      ∃ c, pickName used base baseNoExt ext fuel start = nameForCounter base baseNoExt ext c ∧
        start ≤ c ∧ nameForCounter base baseNoExt ext c ∉ used ∧
        ∀ c', start ≤ c' → c' < c → nameForCounter base baseNoExt ext c' ∈ used := by
  intro fuel
  induction fuel with
  | zero =>
    intro start h
    obtain ⟨c, h1, h2, _⟩ := h
    omega
  | succ f ih =>
    intro start h
    rw [pickName]
    by_cases hc : nameForCounter base baseNoExt ext start ∈ used
    · rw [if_pos hc]
      have hex : ∃ c, start + 1 ≤ c ∧ c < start + 1 + f ∧
          nameForCounter base baseNoExt ext c ∉ used := by
        obtain ⟨c, h1, h2, h3⟩ := h
        refine ⟨c, ?_, by omega, h3⟩
        rcases Nat.eq_or_lt_of_le h1 with heq | hlt
        · exact absurd hc (heq ▸ h3)
        · omega
      obtain ⟨c, hpick, hge, hfresh, hmin⟩ := ih (start + 1) hex
      refine ⟨c, hpick, by omega, hfresh, ?_⟩
      intro c' h1 h2
      rcases Nat.eq_or_lt_of_le h1 with heq | hlt
      · exact heq ▸ hc
      · exact hmin c' hlt h2
    · rw [if_neg hc]
      exact ⟨start, rfl, le_refl start, hc, fun c' h1 h2 => absurd h1 (by omega)⟩

theorem extTail_drop (s : String) :
    s.data.reverse.drop (extTail s).length =
      s.data.reverse.dropWhile (fun c => c ≠ '.' && c ≠ '/') := by
  conv_lhs =>
    rw [← List.takeWhile_append_dropWhile (fun c => c ≠ '.' && c ≠ '/') s.data.reverse]
  rw [extTail, List.drop_left]

/-- `filepath.Ext` always returns a suffix of its argument. -/
theorem goFilepathExt_suffix (s : String) :
    ∃ pre, s.data = pre ++ (goFilepathExt s).data := by
  unfold goFilepathExt
  split
  next l heq =>
    refine ⟨l.reverse, ?_⟩
    rw [extTail_drop] at heq
    have hs : extTail s ++ ('.' :: l) = s.data.reverse := by
      rw [← heq, extTail]
      exact List.takeWhile_append_dropWhile _ _
    have := congrArg List.reverse hs
    rw [List.reverse_reverse] at this
    rw [← this]
    simp
  next heq =>
    exact ⟨s.data, by simp⟩

/-- Removing `filepath.Ext` and appending it back restores the name. -/
theorem trimSuffix_ext_append (base : String) :
    goTrimSuffix base (goFilepathExt base) ++ goFilepathExt base = base := by
  obtain ⟨pre, hpre⟩ := goFilepathExt_suffix base
  set ext := goFilepathExt base with hext
  have hsuf : ext.data.isSuffixOf base.data := by
    rw [List.isSuffixOf_iff_suffix]
    exact ⟨pre, hpre.symm⟩
  apply String.ext
  rw [goTrimSuffix, if_pos hsuf]
  simp only [String.data_append]
  rw [hpre]
  simp only [List.length_append]
  rw [Nat.add_sub_cancel, List.take_left]

/-! ### Sanitized names contain no separator and are nonempty -/

/-- A string containing no path separator. -/
def slashFree (s : String) : Prop := '/' ∉ s.data

instance (s : String) : Decidable (slashFree s) := by
  unfold slashFree
  infer_instance

theorem goTrimSpace_subset (s : String) : ∀ c ∈ (goTrimSpace s).data, c ∈ s.data := by
  intro c hc
  unfold goTrimSpace at hc
  rw [List.mem_reverse] at hc
  have h1 := List.dropWhile_subset goIsSpace hc
  rw [List.mem_reverse] at h1
  exact List.dropWhile_subset goIsSpace h1

theorem sanitizeBulkFilename_slashFree (s : String) :
    slashFree (sanitizeBulkFilename s) := by
  intro hmem
  have := goTrimSpace_subset _ _ hmem
  rw [List.mem_filter] at this
  simp only [Bool.not_eq_true'] at this
  exact absurd this.2 (by decide)

theorem digitChar_ne_slash : ∀ d < 10, Nat.digitChar d ≠ '/' := by decide

theorem decDigits_ne_slash (n : Nat) : ∀ c ∈ decDigits n, c ≠ '/' := by
  induction n using Nat.strong_induction_on with
  | _ n ih =>
    intro c hc
    rw [decDigits] at hc
    by_cases h : n < 10
    · rw [dif_pos h] at hc
      simp at hc
      exact hc ▸ digitChar_ne_slash n h
    · rw [dif_neg h] at hc
      rw [List.mem_append] at hc
      rcases hc with hc | hc
      · exact ih (n / 10) (Nat.div_lt_self (by omega) (by omega)) c hc
      · simp at hc
        exact hc ▸ digitChar_ne_slash (n % 10) (Nat.mod_lt n (by omega))

theorem repr_slashFree (n : Nat) : slashFree (Nat.repr n) := by
  rw [slashFree, repr_eq_decDigits]
  intro h
  exact decDigits_ne_slash n '/' h rfl

theorem slashFree_append (a b : String) (ha : slashFree a) (hb : slashFree b) :
    slashFree (a ++ b) := by
  rw [slashFree, String.data_append]
  intro h
  rcases List.mem_append.1 h with h | h
  · exact ha h
  · exact hb h

theorem append_ne_empty_right (a b : String) (hb : b ≠ "") : a ++ b ≠ "" := by
  intro h
  have hd : a.data ++ b.data = ([] : List Char) := by
    have := congrArg String.data h
    rwa [String.data_append] at this
  exact hb (String.ext (List.append_eq_nil.1 hd).2)

/-- The fallback base `file_<i>` is nonempty and separator-free. -/
theorem fileBase_ok (i : Nat) :
    ("file_" ++ Nat.repr i) ≠ "" ∧ slashFree ("file_" ++ Nat.repr i) := by
  constructor
  · exact append_ne_empty_right _ _ (repr_ne_empty i)
  · exact slashFree_append _ _ (by decide) (repr_slashFree i)

/-- `filepath.Ext` of a separator-free string is separator-free, and so is
the remainder after `TrimSuffix`. -/
theorem ext_slashFree (base : String) (h : slashFree base) :
    slashFree (goFilepathExt base) := by
  obtain ⟨pre, hpre⟩ := goFilepathExt_suffix base
  intro hmem
  exact h (hpre ▸ List.mem_append_right pre hmem)

theorem trimSuffix_slashFree (base ext : String) (h : slashFree base) :
    slashFree (goTrimSuffix base ext) := by
  unfold goTrimSuffix
  split_ifs with hs
  · intro hmem
    exact h (List.take_subset _ _ hmem)
  · exact h

/-- Every candidate the collision loop can produce from a nonempty,
separator-free base splitting as `baseNoExt ++ ext` is itself nonempty and
separator-free. -/
theorem nameForCounter_ok (base baseNoExt ext : String)
    (hsplit : base = baseNoExt ++ ext)
    (hne : base ≠ "") (hsf : slashFree base) (c : Nat) :
    nameForCounter base baseNoExt ext c ≠ "" ∧
      slashFree (nameForCounter base baseNoExt ext c) := by
  unfold nameForCounter
  split_ifs with h
  · exact ⟨hne, hsf⟩
  · have hbne : slashFree baseNoExt := by
      intro hmem
      exact hsf (hsplit ▸ List.mem_append_left _ hmem)
    have hext : slashFree ext := by
      intro hmem
      exact hsf (hsplit ▸ List.mem_append_right _ hmem)
    constructor
    · intro hc
      have hd : ((baseNoExt.data ++ ['_']) ++ (Nat.repr c).data) ++ ext.data =
          ([] : List Char) := by
        have hx := congrArg String.data hc
        simp only [String.data_append] at hx
        exact hx
      have := (List.append_eq_nil.1 (List.append_eq_nil.1 (List.append_eq_nil.1 hd).1).1).2
      simp at this
    · exact slashFree_append _ _
        (slashFree_append _ _ (slashFree_append _ _ hbne (by decide)) (repr_slashFree c)) hext

/-- `filepath.Base` of `dir ++ "/" ++ nm` for a nonempty separator-free `nm`
is `nm` itself, whatever `dir` is. -/
theorem goFilepathBase_append (dir nm : String) (h1 : nm ≠ "") (h2 : slashFree nm) :
    goFilepathBase (dir ++ "/" ++ nm) = nm := by
  have hdata : (dir ++ "/" ++ nm).data = (dir.data ++ ['/']) ++ nm.data := by
    simp [String.data_append]
  have hnm : nm.data ≠ [] := fun hc => h1 (String.ext hc)
  obtain ⟨a, t, hat⟩ : ∃ a t, nm.data = a :: t := by
    cases hx : nm.data with
    | nil => exact absurd hx hnm
    | cons a t => exact ⟨a, t, rfl⟩
  have hrev : (dir ++ "/" ++ nm).data.reverse =
      nm.data.reverse ++ ('/' :: dir.data.reverse) := by
    rw [hdata]
    simp
  have hcore : baseCore (dir ++ "/" ++ nm) = nm.data := by
    rw [baseCore, hrev]
    have hdrop : (nm.data.reverse ++ ('/' :: dir.data.reverse)).dropWhile (· = '/') =
        nm.data.reverse ++ ('/' :: dir.data.reverse) := by
      cases hz : nm.data.reverse with
      | nil => exact absurd (by simpa using congrArg List.reverse hz) hnm
      | cons b u =>
        rw [List.cons_append, List.dropWhile_cons_of_neg]
        simp only [decide_eq_true_eq]
        intro hc
        apply h2
        have hb : b ∈ nm.data.reverse := hz ▸ List.mem_cons_self b u
        rw [List.mem_reverse] at hb
        exact hc ▸ hb
    have htake : (nm.data.reverse ++ ('/' :: dir.data.reverse)).takeWhile (· ≠ '/') =
        nm.data.reverse ++ ('/' :: dir.data.reverse).takeWhile (· ≠ '/') :=
      List.takeWhile_append_of_pos (by
        intro x hx
        simp only [decide_eq_true_eq]
        intro hc
        rw [List.mem_reverse] at hx
        exact h2 (hc ▸ hx))
    have htake2 : ('/' :: dir.data.reverse).takeWhile (· ≠ '/') = ([] : List Char) := by
      rw [List.takeWhile_cons_of_neg]
      simp
    rw [hdrop, htake, htake2]
    simp
  rw [goFilepathBase, if_neg, if_neg]
  · exact String.ext hcore
  · rw [hcore]
    exact hnm
  · intro hc
    have := congrArg String.data hc
    rw [hdata] at this
    simp at this

/-- `filepath.Base` returns either `"/"` or a separator-free string. -/
theorem goFilepathBase_slashFree_or (s : String) :
    goFilepathBase s = "/" ∨ slashFree (goFilepathBase s) := by
  rw [goFilepathBase]
  split_ifs with h1 h2
  · right
    intro hc
    simp [slashFree] at hc
  · left
    rfl
  · right
    intro hc
    have := List.mem_reverse.1 hc
    have := List.mem_takeWhile_imp this
    simp at this

/-! ## `downloader.go`: the archive builders -/

/-- `BulkItem` — URL and desired filename for one unit of bulk work. -/
structure BulkItem where
  URL : String
  Filename : String
deriving DecidableEq, Repr

/-- The base name the loop uses for item `i`: the sanitized desired filename,
or the fallback `file_<i>` when sanitization leaves nothing. -/
def bulkBaseName (i : Nat) (filename : String) : String :=
  if sanitizeBulkFilename filename = "" then "file_" ++ Nat.repr i
  else sanitizeBulkFilename filename

/-- The final collision-resolved name for item `i` against the set of names
already assigned (`used.length + 1` fuel always suffices, `pickName_spec`). -/
def bulkFinalName (used : List String) (i : Nat) (filename : String) : String :=
  pickName used (bulkBaseName i filename)
    (goTrimSuffix (bulkBaseName i filename) (goFilepathExt (bulkBaseName i filename)))
    (goFilepathExt (bulkBaseName i filename)) (used.length + 1) 0

/-- The error exits of `BulkDownloadAndZip` and `ZipBytesToTemp`. -/
inductive BulkErr where
  | emptyArgs
  | noSpace
  | mkdirFailed
  | downloadFailed (msg : String)
  | archiveTooLarge
  | writeFailed
  | createZipFailed
  | createHeaderFailed
  | openFailed
  | zipWriterCloseFailed
  | zipFileCloseFailed
deriving DecidableEq, Repr

/-- The sequential download loop of `BulkDownloadAndZip`: `i` is the index of
the next item, `used` the names already assigned (also the written paths, in
order), `total` the running byte total.  `download i` is the outcome of the
`DownloadToFile` call for item `i` (a function not under `src/`; its result
is an oracle here).  A final name of `.` or `..` makes `filepath.Join`
resolve the destination to the workspace directory itself or to its parent —
both existing directories — so creating the destination file fails there
with the filesystem's is-a-directory error regardless of the oracle. -/
def bulkLoop (download : Nat → Except String Int) (maxArchiveBytes : Int) :
    List BulkItem → Nat → List String → Int → Except BulkErr (List String × Int)
  | [], _, used, total => .ok (used, total)
  | it :: rest, i, used, total =>
    match (if bulkFinalName used i it.Filename = "." ∨ bulkFinalName used i it.Filename = ".."
        then .error "is a directory" else download i : Except String Int) with
    | .error e => .error (.downloadFailed e)
    | .ok n =>
      if total + n > maxArchiveBytes then .error .archiveTooLarge
      else bulkLoop download maxArchiveBytes rest (i + 1)
        (used ++ [bulkFinalName used i it.Filename]) (total + n)

/-- The zip-writing loop of `BulkDownloadAndZip`: for each of the `k`
remaining written files (the next having index `j`), create its zip header
and reopen the file, reporting the first failure (`io.Copy` and file-close
errors are ignored by the code). -/
def zipWriteLoop (createHeaderOk openOk : Nat → Bool) : Nat → Nat → Option BulkErr
  | _, 0 => none
  | j, k + 1 =>
    if createHeaderOk j = false then some .createHeaderFailed
    else if openOk j = false then some .openFailed
    else zipWriteLoop createHeaderOk openOk (j + 1) k

/-- The effect outcomes `BulkDownloadAndZip` observes: the free-space probe,
`os.MkdirAll`, the workspace UUID, each item's `DownloadToFile`, the zip
file's `os.Create`, each entry's `CreateHeader`/`os.Open`, and the two
closes. -/
structure BulkEnv where
  freeSpace : Nat
  mkdirOk : Bool
  uuid : String
  download : Nat → Except String Int
  createZipOk : Bool
  createHeaderOk : Nat → Bool
  openOk : Nat → Bool
  zwCloseOk : Bool
  zfCloseOk : Bool

/-- Result of a builder run: the returned value (on success the zip path, the
workspace directory, and the archive's entry names in order), whether the
workspace directory was created, and whether it was recursively removed
again before returning. -/
structure BuildResult where
  res : Except BulkErr (String × String × List String)
  dirCreated : Bool
  cleanupCalled : Bool

/-- The zip name `BulkDownloadAndZip` picks from the batch's category (the
`".zip"` comparison is the code's second fallback; `sanitizeCategoryForZip`
already falls back to `"archive"`, so it can never fire). -/
def bulkZipName (categoryName : String) : String :=
  if sanitizeCategoryForZip categoryName ++ ".zip" = ".zip" then "archive.zip"
  else sanitizeCategoryForZip categoryName ++ ".zip"

/-- The zip-assembly phase of `BulkDownloadAndZip`, entered after all
downloads succeeded with final names `names`: create the zip file, write
each downloaded file into it under the base name of its path, close the zip
writer and the file.  Every failure removes the workspace. -/
def bulkZipPhase (env : BulkEnv) (categoryName : String) (names : List String) : BuildResult :=
  if env.createZipOk = false then ⟨.error .createZipFailed, true, true⟩
  else
    match zipWriteLoop env.createHeaderOk env.openOk 0 names.length with
    | some e => ⟨.error e, true, true⟩
    | none =>
      if env.zwCloseOk = false then ⟨.error .zipWriterCloseFailed, true, true⟩
      else if env.zfCloseOk = false then ⟨.error .zipFileCloseFailed, true, true⟩
      else
        ⟨.ok ("/tmp/bulk_" ++ env.uuid ++ "/" ++ bulkZipName categoryName,
          "/tmp/bulk_" ++ env.uuid,
          names.map fun nm => goFilepathBase ("/tmp/bulk_" ++ env.uuid ++ "/" ++ nm)),
          true, false⟩

/-- `BulkDownloadAndZip`: reject empty input, check free space, create the
workspace `/tmp/bulk_<uuid>`, run the download loop, then assemble the zip,
cleaning the workspace up on every error after its creation. -/
def BulkDownloadAndZip (env : BulkEnv) (yandexNil : Bool) (items : List BulkItem)
    (categoryName : String) (maxArchiveBytes minFreeBytes : Int) : BuildResult :=
  if yandexNil ∨ items = [] then ⟨.error .emptyArgs, false, false⟩
  else if env.freeSpace < goUint64OfInt minFreeBytes then ⟨.error .noSpace, false, false⟩
  else if env.mkdirOk = false then ⟨.error .mkdirFailed, false, false⟩
  else
    match bulkLoop env.download maxArchiveBytes items 0 [] 0 with
    | .error e => ⟨.error e, true, true⟩
    | .ok (names, _total) => bulkZipPhase env categoryName names

/-- The effect outcomes `ZipBytesToTemp` observes: the workspace UUID,
`os.MkdirAll`, `os.WriteFile` (barring the forced is-a-directory failures),
`os.Create` for the zip, and `CreateHeader`. -/
structure SingleEnv where
  uuid : String
  mkdirOk : Bool
  writeOk : Bool
  createZipOk : Bool
  createHeaderOk : Bool

/-- `ZipBytesToTemp`: reduce both requested names to their base components
(`filepath.Base`), substituting `"document"` / `"archive.zip"` when the base
is empty or `"."`; create the workspace `/tmp/single_<uuid>`; write the raw
bytes; wrap them in a one-entry zip.  A base of `"/"` or `".."` makes
`filepath.Join` resolve the target path to the workspace directory itself or
to its parent — existing directories — so `os.WriteFile` / `os.Create` fail
there regardless of the oracle.  Every failure after the `MkdirAll` removes
the workspace.  (`os.Open`, `io.Copy` and both closes have their errors
ignored by the code.) -/
def innerEntryName (innerFilename : String) : String :=
  if goFilepathBase innerFilename = "" ∨ goFilepathBase innerFilename = "." then "document"
  else goFilepathBase innerFilename

def singleZipName (zipFilename : String) : String :=
  if goFilepathBase zipFilename = "" ∨ goFilepathBase zipFilename = "." then "archive.zip"
  else goFilepathBase zipFilename

def ZipBytesToTemp (env : SingleEnv) (data : List Nat)
    (innerFilename zipFilename : String) : BuildResult :=
  if env.mkdirOk = false then ⟨.error .mkdirFailed, false, false⟩
  else if env.writeOk = false ∨ innerEntryName innerFilename = "/" ∨
      innerEntryName innerFilename = ".." then
    ⟨.error .writeFailed, true, true⟩
  else if env.createZipOk = false ∨ singleZipName zipFilename = "/" ∨
      singleZipName zipFilename = ".." then
    ⟨.error .createZipFailed, true, true⟩
  else if env.createHeaderOk = false then ⟨.error .createHeaderFailed, true, true⟩
  else ⟨.ok ("/tmp/single_" ++ env.uuid ++ "/" ++ singleZipName zipFilename,
    "/tmp/single_" ++ env.uuid, [innerEntryName innerFilename]), true, false⟩

/-! ### Correctness of the naming loop -/

theorem bulkBaseName_ok (i : Nat) (fn : String) :
    bulkBaseName i fn ≠ "" ∧ slashFree (bulkBaseName i fn) := by
  unfold bulkBaseName
  split_ifs with h
  · exact fileBase_ok i
  · exact ⟨h, sanitizeBulkFilename_slashFree fn⟩

theorem bulkBaseName_split (i : Nat) (fn : String) :
    bulkBaseName i fn =
      goTrimSuffix (bulkBaseName i fn) (goFilepathExt (bulkBaseName i fn)) ++
        goFilepathExt (bulkBaseName i fn) :=
  (trimSuffix_ext_append (bulkBaseName i fn)).symm

/-- The final name for one item is a candidate `nameForCounter` at the least
counter avoiding the already-used names, it is fresh, nonempty and
separator-free. -/
theorem bulkFinalName_spec (used : List String) (i : Nat) (fn : String) :
    ∃ c, bulkFinalName used i fn = nameForCounter (bulkBaseName i fn)
        (goTrimSuffix (bulkBaseName i fn) (goFilepathExt (bulkBaseName i fn)))
        (goFilepathExt (bulkBaseName i fn)) c ∧
      bulkFinalName used i fn ∉ used ∧
      (∀ c', c' < c → nameForCounter (bulkBaseName i fn)
        (goTrimSuffix (bulkBaseName i fn) (goFilepathExt (bulkBaseName i fn)))
        (goFilepathExt (bulkBaseName i fn)) c' ∈ used) ∧
      bulkFinalName used i fn ≠ "" ∧ slashFree (bulkFinalName used i fn) := by
  obtain ⟨c0, hc1, hc2, hc3⟩ := exists_fresh_counter used (bulkBaseName i fn) _ _
    (bulkBaseName_split i fn) 0
  obtain ⟨c, hpick, -, hfresh, hmin⟩ := pickName_spec used (bulkBaseName i fn) _ _
    (used.length + 1) 0 ⟨c0, hc1, by omega, hc3⟩
  refine ⟨c, hpick, ?_, ?_, ?_, ?_⟩
  · rw [bulkFinalName, hpick]
    exact hfresh
  · intro c' h
    exact hmin c' (Nat.zero_le c') h
  · rw [bulkFinalName, hpick]
    exact (nameForCounter_ok _ _ _ (bulkBaseName_split i fn)
      (bulkBaseName_ok i fn).1 (bulkBaseName_ok i fn).2 c).1
  · rw [bulkFinalName, hpick]
    exact (nameForCounter_ok _ _ _ (bulkBaseName_split i fn)
      (bulkBaseName_ok i fn).1 (bulkBaseName_ok i fn).2 c).2

/-- The pure naming projection of the download loop: the names it assigns
when every download succeeds. -/
def assignNames : List BulkItem → Nat → List String → List String
  | [], _, used => used
  | it :: rest, i, used =>
    assignNames rest (i + 1) (used ++ [bulkFinalName used i it.Filename])

/-- A successful download loop assigns exactly the names of `assignNames`. -/
theorem bulkLoop_names (download : Nat → Except String Int) (maxA : Int) :
    ∀ (items : List BulkItem) (i : Nat) (used : List String) (total : Int)
      (names : List String) (t : Int),
      bulkLoop download maxA items i used total = .ok (names, t) →
      names = assignNames items i used := by
  intro items
  induction items with
  | nil =>
    intro i used total names t h
    rw [bulkLoop] at h
    simp only [Except.ok.injEq, Prod.mk.injEq] at h
    rw [assignNames]
    exact h.1.symm
  | cons it rest ih =>
    intro i used total names t h
    rw [bulkLoop] at h
    split at h
    · exact Except.noConfusion h
    · split_ifs at h with hbig
      rw [assignNames]
      exact ih _ _ _ _ _ h

/-- Invariants of the naming loop: starting from duplicate-free, nonempty,
separator-free names, the assigned list extends `used` by one name per item,
stays duplicate-free, nonempty and separator-free, and the name at position
`used.length + j` is the collision resolution of item `j`'s base against
everything before that position. -/
theorem assignNames_spec :
    ∀ (items : List BulkItem) (i : Nat) (used : List String),
      used.Nodup → (∀ nm ∈ used, nm ≠ "" ∧ slashFree nm) →
      (assignNames items i used).length = used.length + items.length ∧
      (assignNames items i used).take used.length = used ∧
      (assignNames items i used).Nodup ∧
      (∀ nm ∈ assignNames items i used, nm ≠ "" ∧ slashFree nm) ∧
      (∀ j it, items[j]? = some it →
        (assignNames items i used)[used.length + j]? =
          some (bulkFinalName ((assignNames items i used).take (used.length + j)) (i + j)
            it.Filename)) := by
  intro items
  induction items with
  | nil =>
    intro i used hnd hok
    simp only [assignNames]
    refine ⟨by simp, List.take_length used, hnd, hok, ?_⟩
    intro j it hj
    simp at hj
  | cons it rest ih =>
    intro i used hnd hok
    obtain ⟨c, -, hfresh, -, hne, hsf⟩ := bulkFinalName_spec used i it.Filename
    have hnd' : (used ++ [bulkFinalName used i it.Filename]).Nodup := by
      rw [List.nodup_append]
      exact ⟨hnd, List.nodup_singleton _, by
        intro a ha hb
        simp at hb
        exact hfresh (hb ▸ ha)⟩
    have hok' : ∀ nm ∈ used ++ [bulkFinalName used i it.Filename], nm ≠ "" ∧ slashFree nm := by
      intro nm hnm
      rcases List.mem_append.1 hnm with h | h
      · exact hok nm h
      · simp at h
        exact h ▸ ⟨hne, hsf⟩
    obtain ⟨ihl, iht, ihnd, ihall, ihget⟩ := ih (i + 1) _ hnd' hok'
    rw [assignNames]
    have hlen1 : (used ++ [bulkFinalName used i it.Filename]).length = used.length + 1 := by
      simp
    have htake : (assignNames rest (i + 1)
        (used ++ [bulkFinalName used i it.Filename])).take used.length = used := by
      have h1 : (assignNames rest (i + 1)
          (used ++ [bulkFinalName used i it.Filename])).take used.length =
          ((assignNames rest (i + 1)
            (used ++ [bulkFinalName used i it.Filename])).take (used.length + 1)).take
              used.length := by
        rw [List.take_take]
        congr 1
        omega
      have h2 : (assignNames rest (i + 1)
          (used ++ [bulkFinalName used i it.Filename])).take (used.length + 1) =
          used ++ [bulkFinalName used i it.Filename] := by
        rw [← hlen1]
        exact iht
      rw [h1, h2, List.take_left]
    refine ⟨?_, htake, ihnd, ihall, ?_⟩
    · rw [ihl, hlen1]
      simp
      omega
    · intro j itj hj
      cases j with
      | zero =>
        simp only [List.getElem?_cons_zero, Option.some.injEq] at hj
        subst hj
        have hget0 : (assignNames rest (i + 1)
            (used ++ [bulkFinalName used i it.Filename]))[used.length]? =
            some (bulkFinalName used i it.Filename) := by
          have h2 : (assignNames rest (i + 1)
              (used ++ [bulkFinalName used i it.Filename])).take (used.length + 1) =
              used ++ [bulkFinalName used i it.Filename] := by
            rw [← hlen1]
            exact iht
          have h3 : (assignNames rest (i + 1)
              (used ++ [bulkFinalName used i it.Filename]))[used.length]? =
              ((assignNames rest (i + 1)
                (used ++ [bulkFinalName used i it.Filename])).take (used.length + 1))[used.length]? :=
            (List.getElem?_take_of_lt (by omega)).symm
          rw [h3, h2]
          exact List.getElem?_concat_length used _
        simp only [Nat.add_zero]
        rw [hget0, htake]
      | succ j' =>
        simp only [List.getElem?_cons_succ] at hj
        have := ihget j' itj hj
        rw [hlen1] at this
        have harith : used.length + 1 + j' = used.length + (j' + 1) := by omega
        rw [harith] at this
        rw [this]
        congr 2
        omega

theorem map_base_eq_self (d : String) (names : List String)
    (h : ∀ nm ∈ names, nm ≠ "" ∧ slashFree nm) :
    (names.map fun nm => goFilepathBase (d ++ "/" ++ nm)) = names := by
  induction names with
  | nil => rfl
  | cons a t ih =>
    simp only [List.map_cons]
    rw [goFilepathBase_append d a (h a (List.mem_cons_self a t)).1
        (h a (List.mem_cons_self a t)).2,
      ih fun nm hm => h nm (List.mem_cons_of_mem a hm)]

theorem bulkZipPhase_shape (env : BulkEnv) (categoryName : String) (names : List String) :
    (bulkZipPhase env categoryName names).cleanupCalled = true ∨
    ∃ v, (bulkZipPhase env categoryName names).res = .ok v := by
  unfold bulkZipPhase
  split_ifs with h1 h2 h3 <;>
    (try split) <;>
    first
      | (left; rfl)
      | (right; exact ⟨_, rfl⟩)

theorem bulkZipPhase_ok (env : BulkEnv) (categoryName : String) (names : List String)
    (zp bd : String) (entries : List String)
    (hok : (bulkZipPhase env categoryName names).res = .ok (zp, bd, entries)) :
    entries = names.map fun nm => goFilepathBase ("/tmp/bulk_" ++ env.uuid ++ "/" ++ nm) := by
  unfold bulkZipPhase at hok
  split_ifs at hok with h1 h2 h3 <;>
    (try split at hok) <;>
    (try exact Except.noConfusion hok)
  have hok' : (Except.ok ("/tmp/bulk_" ++ env.uuid ++ "/" ++ bulkZipName categoryName,
      "/tmp/bulk_" ++ env.uuid,
      names.map fun nm => goFilepathBase ("/tmp/bulk_" ++ env.uuid ++ "/" ++ nm)) :
      Except BulkErr (String × String × List String)) = .ok (zp, bd, entries) := hok
  simp only [Except.ok.injEq, Prod.mk.injEq] at hok'
  exact hok'.2.2.symm

/-- A successful bulk run's archive entries are exactly the names assigned by
the download loop. -/
theorem bulk_success_spec (env : BulkEnv) (yandexNil : Bool) (items : List BulkItem)
    (categoryName : String) (maxA minF : Int) (zp bd : String) (entries : List String)
    (hok : (BulkDownloadAndZip env yandexNil items categoryName maxA minF).res =
      .ok (zp, bd, entries)) :
    entries = assignNames items 0 [] := by
  unfold BulkDownloadAndZip at hok
  split_ifs at hok with h1 h2 h3
  split at hok
  · exact Except.noConfusion hok
  next names total heq =>
    have hnames : names = assignNames items 0 [] :=
      bulkLoop_names env.download maxA items 0 [] 0 names total heq
    have hent := bulkZipPhase_ok env categoryName names zp bd entries hok
    have hall : ∀ nm ∈ names, nm ≠ "" ∧ slashFree nm := by
      rw [hnames]
      exact (assignNames_spec items 0 [] List.nodup_nil (by simp)).2.2.2.1
    rw [hent, map_base_eq_self _ names hall, hnames]

theorem bulk_result_shape (env : BulkEnv) (yandexNil : Bool) (items : List BulkItem)
    (categoryName : String) (maxA minF : Int) :
    (BulkDownloadAndZip env yandexNil items categoryName maxA minF).cleanupCalled = true ∨
    (BulkDownloadAndZip env yandexNil items categoryName maxA minF).dirCreated = false ∨
    ∃ v, (BulkDownloadAndZip env yandexNil items categoryName maxA minF).res = .ok v := by
  unfold BulkDownloadAndZip
  split_ifs with h1 h2 h3
  · right; left; rfl
  · right; left; rfl
  · right; left; rfl
  · split
    · left; rfl
    · rcases bulkZipPhase_shape env categoryName _ with h | ⟨v, hv⟩
      · left
        exact h
      · right; right
        exact ⟨v, hv⟩

theorem single_result_shape (env : SingleEnv) (data : List Nat)
    (innerFilename zipFilename : String) :
    (ZipBytesToTemp env data innerFilename zipFilename).cleanupCalled = true ∨
    (ZipBytesToTemp env data innerFilename zipFilename).dirCreated = false ∨
    ∃ v, (ZipBytesToTemp env data innerFilename zipFilename).res = .ok v := by
  unfold ZipBytesToTemp
  split_ifs with h1 h2 h3 h4
  · right; left; rfl
  · left; rfl
  · left; rfl
  · left; rfl
  · right; right; exact ⟨_, rfl⟩

/-- **C2**: every error return of the archive builders that happens after the
workspace directory was created is preceded by recursive removal of that
workspace, for both `BulkDownloadAndZip` and `ZipBytesToTemp` — no failed
request leaves its workspace directory behind. -/
theorem builders_cleanup_on_failure :
    (∀ (env : BulkEnv) (yandexNil : Bool) (items : List BulkItem) (categoryName : String)
      (maxA minF : Int) (e : BulkErr),
      (BulkDownloadAndZip env yandexNil items categoryName maxA minF).res = .error e →
      (BulkDownloadAndZip env yandexNil items categoryName maxA minF).dirCreated = true →
      (BulkDownloadAndZip env yandexNil items categoryName maxA minF).cleanupCalled = true) ∧
    (∀ (env : SingleEnv) (data : List Nat) (innerFilename zipFilename : String) (e : BulkErr),
      (ZipBytesToTemp env data innerFilename zipFilename).res = .error e →
      (ZipBytesToTemp env data innerFilename zipFilename).dirCreated = true →
      (ZipBytesToTemp env data innerFilename zipFilename).cleanupCalled = true) := by
  constructor
  · intro env yandexNil items categoryName maxA minF e hres hdir
    rcases bulk_result_shape env yandexNil items categoryName maxA minF with h | h | ⟨v, hv⟩
    · exact h
    · rw [hdir] at h
      exact absurd h (by simp)
    · rw [hres] at hv
      exact Except.noConfusion hv
  · intro env data innerFilename zipFilename e hres hdir
    rcases single_result_shape env data innerFilename zipFilename with h | h | ⟨v, hv⟩
    · exact h
    · rw [hdir] at h
      exact absurd h (by simp)
    · rw [hres] at hv
      exact Except.noConfusion hv

/-- **C2** (witness): a bulk run whose first download fails, and a single-file
run whose raw write fails, both clean their freshly created workspace up. -/
theorem builders_cleanup_on_failure_witness :
    (BulkDownloadAndZip ⟨2 ^ 63, true, "w", fun _ => .error "network down", true,
        fun _ => true, fun _ => true, true, true⟩ false [⟨"u", "a.txt"⟩] "c" 100 0).cleanupCalled
      = true ∧
    (ZipBytesToTemp ⟨"w", true, false, true, true⟩ [] "a" "b").cleanupCalled = true :=
  ⟨builders_cleanup_on_failure.1 _ false [⟨"u", "a.txt"⟩] "c" 100 0
      (.downloadFailed "network down") rfl rfl,
    builders_cleanup_on_failure.2 _ [] "a" "b" .writeFailed rfl rfl⟩

/-- **C4**: a successful bulk build archives exactly one entry per item, in
input order; entry `j` is its item's base name carrying the smallest counter
that avoids every earlier entry — counter `0` keeps the unsuffixed name
(first occurrence), a collision inserts `_c` before the file extension. -/
theorem bulk_entry_naming (env : BulkEnv) (yandexNil : Bool) (items : List BulkItem)
    (categoryName : String) (maxA minF : Int) (zp bd : String) (entries : List String)
    (hok : (BulkDownloadAndZip env yandexNil items categoryName maxA minF).res =
      .ok (zp, bd, entries)) :
    entries.length = items.length ∧
    ∀ j it, items[j]? = some it →
      ∃ c, entries[j]? = some (nameForCounter (bulkBaseName j it.Filename)
          (goTrimSuffix (bulkBaseName j it.Filename) (goFilepathExt (bulkBaseName j it.Filename)))
          (goFilepathExt (bulkBaseName j it.Filename)) c) ∧
        nameForCounter (bulkBaseName j it.Filename)
          (goTrimSuffix (bulkBaseName j it.Filename) (goFilepathExt (bulkBaseName j it.Filename)))
          (goFilepathExt (bulkBaseName j it.Filename)) c ∉ entries.take j ∧
        ∀ c' < c, nameForCounter (bulkBaseName j it.Filename)
          (goTrimSuffix (bulkBaseName j it.Filename) (goFilepathExt (bulkBaseName j it.Filename)))
          (goFilepathExt (bulkBaseName j it.Filename)) c' ∈ entries.take j := by
  have hE := bulk_success_spec env yandexNil items categoryName maxA minF zp bd entries hok
  obtain ⟨hlen, -, -, -, hget⟩ := assignNames_spec items 0 [] List.nodup_nil (by simp)
  constructor
  · rw [hE, hlen]
    simp
  · intro j it hj
    have h1 := hget j it hj
    simp only [List.length_nil, Nat.zero_add] at h1
    rw [← hE] at h1
    obtain ⟨c, hpick, hfresh, hmin, -, -⟩ := bulkFinalName_spec (entries.take j) j it.Filename
    refine ⟨c, ?_, ?_, ?_⟩
    · rw [h1, hpick]
    · rw [← hpick]
      exact hfresh
    · intro c' hc'
      exact hmin c' hc'

/-- **C4** (witness): two items both wanting `a.txt` produce the entries
`a.txt` and `a_1.txt`, in input order. -/
theorem bulk_entry_naming_witness :
    (["a.txt", "a_1.txt"] : List String).length =
      ([⟨"u", "a.txt"⟩, ⟨"u", "a.txt"⟩] : List BulkItem).length ∧
    ∀ j it, ([⟨"u", "a.txt"⟩, ⟨"u", "a.txt"⟩] : List BulkItem)[j]? = some it →
      ∃ c, (["a.txt", "a_1.txt"] : List String)[j]? =
          some (nameForCounter (bulkBaseName j it.Filename)
          (goTrimSuffix (bulkBaseName j it.Filename) (goFilepathExt (bulkBaseName j it.Filename)))
          (goFilepathExt (bulkBaseName j it.Filename)) c) ∧
        nameForCounter (bulkBaseName j it.Filename)
          (goTrimSuffix (bulkBaseName j it.Filename) (goFilepathExt (bulkBaseName j it.Filename)))
          (goFilepathExt (bulkBaseName j it.Filename)) c ∉
            (["a.txt", "a_1.txt"] : List String).take j ∧
        ∀ c' < c, nameForCounter (bulkBaseName j it.Filename)
          (goTrimSuffix (bulkBaseName j it.Filename) (goFilepathExt (bulkBaseName j it.Filename)))
          (goFilepathExt (bulkBaseName j it.Filename)) c' ∈
            (["a.txt", "a_1.txt"] : List String).take j :=
  bulk_entry_naming
    ⟨2 ^ 63, true, "w", fun _ => .ok 1, true, fun _ => true, fun _ => true, true, true⟩
    false [⟨"u", "a.txt"⟩, ⟨"u", "a.txt"⟩] "cat" 100 0
    "/tmp/bulk_w/cat.zip" "/tmp/bulk_w" ["a.txt", "a_1.txt"] rfl

/-- **C9**: in a successful bulk batch, an item whose sanitized desired name
is empty gets the fallback base `file_<index>` (then collision resolution),
and after each iteration the assigned names are pairwise distinct and none
is empty. -/
theorem bulk_names_wellformed (env : BulkEnv) (yandexNil : Bool) (items : List BulkItem)
    (categoryName : String) (maxA minF : Int) (zp bd : String) (entries : List String)
    (hok : (BulkDownloadAndZip env yandexNil items categoryName maxA minF).res =
      .ok (zp, bd, entries)) :
    (∀ j it, items[j]? = some it → sanitizeBulkFilename it.Filename = "" →
      ∃ c, entries[j]? = some (nameForCounter ("file_" ++ Nat.repr j)
        (goTrimSuffix ("file_" ++ Nat.repr j) (goFilepathExt ("file_" ++ Nat.repr j)))
        (goFilepathExt ("file_" ++ Nat.repr j)) c)) ∧
    ∀ k, (entries.take k).Nodup ∧ "" ∉ entries.take k := by
  have hE := bulk_success_spec env yandexNil items categoryName maxA minF zp bd entries hok
  obtain ⟨-, -, hnd, hall, hget⟩ := assignNames_spec items 0 [] List.nodup_nil (by simp)
  constructor
  · intro j it hj hempty
    have h1 := hget j it hj
    simp only [List.length_nil, Nat.zero_add] at h1
    rw [← hE] at h1
    obtain ⟨c, hpick, -, -, -, -⟩ := bulkFinalName_spec (entries.take j) j it.Filename
    have hbase : bulkBaseName j it.Filename = "file_" ++ Nat.repr j := by
      rw [bulkBaseName, if_pos hempty]
    rw [hbase] at hpick
    exact ⟨c, by rw [h1, hpick]⟩
  · intro k
    have hnd' : entries.Nodup := hE ▸ hnd
    constructor
    · exact hnd'.sublist (List.take_sublist k entries)
    · intro hmem
      have hm2 : ("" : String) ∈ entries := List.take_subset k entries hmem
      exact (hall "" (hE ▸ hm2)).1 rfl

/-- **C9** (witness): a lone item whose desired name sanitizes to nothing is
archived as `file_0`, and the entry list is duplicate-free and nonempty. -/
theorem bulk_names_wellformed_witness :
    (∀ j it, ([⟨"u", "  "⟩] : List BulkItem)[j]? = some it →
      sanitizeBulkFilename it.Filename = "" →
      ∃ c, (["file_0"] : List String)[j]? = some (nameForCounter ("file_" ++ Nat.repr j)
        (goTrimSuffix ("file_" ++ Nat.repr j) (goFilepathExt ("file_" ++ Nat.repr j)))
        (goFilepathExt ("file_" ++ Nat.repr j)) c)) ∧
    ∀ k, ((["file_0"] : List String).take k).Nodup ∧
      "" ∉ (["file_0"] : List String).take k :=
  bulk_names_wellformed
    ⟨2 ^ 63, true, "w", fun _ => .ok 1, true, fun _ => true, fun _ => true, true, true⟩
    false [⟨"u", "  "⟩] "cat" 100 0 "/tmp/bulk_w/cat.zip" "/tmp/bulk_w" ["file_0"] rfl

/-- **C8**: every successful `ZipBytesToTemp` run produces exactly one entry,
named `filepath.Base` of the requested inner filename with the fallback
`"document"` when that base is empty or `"."`; the entry name never contains
a path separator. -/
theorem single_zip_entry (env : SingleEnv) (data : List Nat)
    (innerFilename zipFilename zp dir : String) (entries : List String)
    (hok : (ZipBytesToTemp env data innerFilename zipFilename).res = .ok (zp, dir, entries)) :
    entries = [innerEntryName innerFilename] ∧
    innerEntryName innerFilename =
      (if goFilepathBase innerFilename = "" ∨ goFilepathBase innerFilename = "."
       then "document" else goFilepathBase innerFilename) ∧
    ∀ nm ∈ entries, slashFree nm := by
  unfold ZipBytesToTemp at hok
  split_ifs at hok with h1 h2 h3 h4
  have hok' : (Except.ok ("/tmp/single_" ++ env.uuid ++ "/" ++ singleZipName zipFilename,
      "/tmp/single_" ++ env.uuid, [innerEntryName innerFilename]) :
      Except BulkErr (String × String × List String)) = .ok (zp, dir, entries) := hok
  simp only [Except.ok.injEq, Prod.mk.injEq] at hok'
  obtain ⟨-, -, hent⟩ := hok'
  push_neg at h2
  refine ⟨hent.symm, rfl, ?_⟩
  intro nm hnm
  rw [← hent] at hnm
  simp only [List.mem_singleton] at hnm
  subst hnm
  rw [innerEntryName]
  split_ifs with h5
  · intro hc
    simp [slashFree] at hc
  · rcases goFilepathBase_slashFree_or innerFilename with h | h
    · exfalso
      apply h2.2.1
      rw [innerEntryName, if_neg h5]
      exact h
    · exact h

/-- **C8** (witness): a path-qualified inner name is archived as its base
component only. -/
theorem single_zip_entry_witness :
    (["report.pdf"] : List String) = [innerEntryName "docs/report.pdf"] ∧
    innerEntryName "docs/report.pdf" =
      (if goFilepathBase "docs/report.pdf" = "" ∨ goFilepathBase "docs/report.pdf" = "."
       then "document" else goFilepathBase "docs/report.pdf") ∧
    ∀ nm ∈ (["report.pdf"] : List String), slashFree nm :=
  single_zip_entry ⟨"w", true, true, true, true⟩ [1, 2] "docs/report.pdf" "x/y.zip"
    "/tmp/single_w/y.zip" "/tmp/single_w" ["report.pdf"] rfl

end BuhChat
